import Mathlib

/-!
Shallow embedding of the Lox front-end (lexer, minimal recursive-descent
parser, AST printer) found in src/main.rs, together with theorems settling
the specification claims about it.

Modelling conventions:
* Characters and strings are Lean `Char` / `String`; the scanners walk the
  character list `String.data`, mirroring the Rust `Peekable<Chars>` cursor.
* The Rust scanner and parser loops are embedded as fuel-indexed structural
  recursions returning `Option`; the fuel-exhaustion branch returns `none`
  and is proved unreachable for the fuel the entry points supply (that is
  the termination content of the corresponding claims).
* Rust `f64` number payloads are modelled as exact rationals: decimal
  literals are decoded exactly, and `format_float_value` produces the exact
  decimal expansion.  On every literal whose decimal value round-trips
  through `f64` (all literals exercised here) this agrees with the Rust
  behaviour.
* `println!` / `eprintln!` output is modelled as explicit `List String`
  result and error channels.
-/

namespace Lox

/-- Kinds of token used by the parser (Rust `enum TokenType`). -/
inductive TokenType where
  | LeftParen
  | RightParen
  | Number (n : ℚ)
  | StringLit (s : String)
  | True
  | False
  | Nil
  | Eof
deriving DecidableEq

/-- A token for the parser (Rust `struct Token`). -/
structure Token where
  token_type : TokenType
  lexeme : String
  line : Nat
deriving DecidableEq

/-- Literal values (Rust `enum LitValue`). -/
inductive LitValue where
  | Boolean (b : Bool)
  | Nil
  | Number (n : ℚ)
  | Str (s : String)
deriving DecidableEq

/-- The minimal expression AST (Rust `enum Expr`). -/
inductive Expr where
  | Literal (v : LitValue)
  | Grouping (e : Expr)
deriving DecidableEq

/-- Numeric value of a decimal digit. -/
def digitVal (c : Char) : Nat := c.toNat - Char.toNat '0'

/-- Value of a digit sequence read in base ten. -/
def digitsToNat (ds : List Char) : Nat :=
  ds.foldl (fun n c => 10 * n + digitVal c) 0

/-- Exact-rational model of Rust `str::parse::<f64>` on the decimal
literals the scanner produces (digits with at most one interior or
trailing dot).  The decoded value is the exact rational; for every
literal whose value round-trips through `f64` this is the value the Rust
code decodes. -/
def parseDecimal (s : String) : Option ℚ :=
  let ip := s.data.takeWhile Char.isDigit
  let rest := s.data.dropWhile Char.isDigit
  if ip = [] then none
  else
    match rest with
    | [] => some (digitsToNat ip : ℚ)
    | c :: fp =>
      if c = '.' ∧ fp.all Char.isDigit then
        some ((digitsToNat ip : ℚ) + (digitsToNat fp : ℚ) / ((10 : ℚ) ^ fp.length))
      else none

/-- Decimal digits of the fractional part of a nonnegative rational; the
fuel bounds the number of digits produced (enough for every rational
whose denominator divides a power of ten, the only ones the pipeline
builds). -/
def fracDigits : Nat → ℚ → String
  | 0, _ => ""
  | k + 1, q =>
    if q = 0 then ""
    else
      let q10 := q * 10
      toString q10.floor ++ fracDigits k (q10 - (q10.floor : ℚ))

/-- Rust `format_float_value`: an integral value prints as
`<integer>.0`; otherwise the minimal decimal representation (modelled by
the exact decimal expansion, which agrees with Rust shortest round-trip
printing on every value decoded from a short decimal literal). -/
def format_float_value (value : ℚ) : String :=
  if value.den = 1 then toString value.num ++ ".0"
  else toString value.floor ++ "." ++ fracDigits value.den (value - (value.floor : ℚ))

/-- The Lox keyword table of `tokenize` (Rust `keywords: HashMap`). -/
def keywords : List (String × String) :=
  [("and", "AND"), ("class", "CLASS"), ("else", "ELSE"), ("false", "FALSE"),
   ("for", "FOR"), ("fun", "FUN"), ("if", "IF"), ("nil", "NIL"),
   ("or", "OR"), ("print", "PRINT"), ("return", "RETURN"), ("super", "SUPER"),
   ("this", "THIS"), ("true", "TRUE"), ("var", "VAR"), ("while", "WHILE")]

/-- Rust `identify_keyword` (used by `scan_raw_tokens`). -/
def identify_keyword (s : String) : String :=
  match s with
  | "true" => "TRUE"
  | "false" => "FALSE"
  | "nil" => "NIL"
  | _ => "IDENTIFIER"

/-- How the string-scanning loop of `tokenize` stopped. -/
inductive StrEnd where
  | closed
  | newline
  | atEnd
deriving DecidableEq

/-- Result of the string-scanning loop of `tokenize`. -/
structure TokStr where
  lit : List Char
  rest : List Char
  stop : StrEnd
deriving DecidableEq

/-- The string loop of `tokenize`: consume until a closing quote (consumed,
`closed`), a newline (left in place, `newline`) or end of input (`atEnd`). -/
def tokStr : List Char → TokStr
  | [] => ⟨[], [], .atEnd⟩
  | c :: cs =>
    if c = '"' then ⟨[], cs, .closed⟩
    else if c = '\n' then ⟨[], c :: cs, .newline⟩
    else
      let r := tokStr cs
      ⟨c :: r.lit, r.rest, r.stop⟩

/-- Result of the string-scanning loop of `scan_raw_tokens`. -/
structure RawStr where
  lit : List Char
  rest : List Char
  line : Nat
  unterminated : Bool
deriving DecidableEq

/-- The string loop of `scan_raw_tokens`: newlines are consumed into the
literal and counted; the loop stops at a closing quote (consumed) or end
of input (`unterminated` stays true). -/
def rawStr : List Char → Nat → RawStr
  | [], line => ⟨[], [], line, true⟩
  | c :: cs, line =>
    if c = '"' then ⟨[], cs, line, false⟩
    else
      let line1 := if c = '\n' then line + 1 else line
      let r := rawStr cs line1
      ⟨c :: r.lit, r.rest, r.line, r.unterminated⟩

/-- The number loop shared by both scanners: digits are consumed greedily
and at most one dot is accepted; returns the consumed characters, the
final `is_float` flag and the rest of the input. -/
def rawNumber : Bool → List Char → List Char × Bool × List Char
  | is_float, [] => ([], is_float, [])
  | is_float, c :: cs =>
    if c.isDigit then
      let r := rawNumber is_float cs
      (c :: r.1, r.2.1, r.2.2)
    else if c = '.' ∧ is_float = false then
      let r := rawNumber true cs
      (c :: r.1, r.2.1, r.2.2)
    else ([], is_float, c :: cs)

/-- The identifier loop shared by both scanners: alphanumeric characters
and underscores are consumed greedily. -/
def rawIdent : List Char → List Char × List Char
  | [] => ([], [])
  | c :: cs =>
    if c.isAlphanum ∨ c = '_' then
      let r := rawIdent cs
      (c :: r.1, r.2)
    else ([], c :: cs)

/-- The comment loop of `tokenize`: discard characters up to but not
including the next newline. -/
def skipComment : List Char → List Char
  | [] => []
  | c :: cs => if c = '\n' then c :: cs else skipComment cs

/-- Output of `tokenize`: the stdout token lines, the stderr diagnostic
lines, and the cumulative `had_error` flag. -/
structure TokOut where
  out : List String
  err : List String
  hadError : Bool
deriving DecidableEq

/-- Prepend a stdout line to a `tokenize` result. -/
def withOut (l : String) (r : TokOut) : TokOut := ⟨l :: r.out, r.err, r.hadError⟩

/-- Prepend a stderr diagnostic and set the error flag. -/
def withErr (e : String) (r : TokOut) : TokOut := ⟨r.out, e :: r.err, true⟩

/-- Prepend the same stderr diagnostic twice and set the error flag
(the unterminated-string-at-newline path of `tokenize` reports both from
inside the loop and from the check after it). -/
def withErr2 (e : String) (r : TokOut) : TokOut := ⟨r.out, e :: e :: r.err, true⟩

/-- The `Unterminated string` diagnostic of `tokenize`. -/
def unterminatedMsg (line : Nat) : String :=
  "[line " ++ toString line ++ "] Error: Unterminated string."

/-- The `Unexpected character` diagnostic of `tokenize` (note: the Rust
format string carries no trailing period). -/
def unexpectedMsg (line : Nat) (c : Char) : String :=
  "[line " ++ toString line ++ "] Error: Unexpected character: " ++ Char.toString c

/-- One iteration of the Rust `tokenize` loop on the character `c` with
remaining input `cs`; `recur` is the rest of the loop. -/
def tokenizeStep (recur : List Char → Nat → Option TokOut) (c : Char) (cs : List Char)
    (line : Nat) : Option TokOut :=
    if c = '(' then (recur cs line).map (withOut "LEFT_PAREN ( null")
    else if c = ')' then (recur cs line).map (withOut "RIGHT_PAREN ) null")
    else if c = '{' then (recur cs line).map (withOut "LEFT_BRACE \x7b null")
    else if c = '}' then (recur cs line).map (withOut "RIGHT_BRACE \x7d null")
    else if c = '*' then (recur cs line).map (withOut "STAR * null")
    else if c = '.' then (recur cs line).map (withOut "DOT . null")
    else if c = '+' then (recur cs line).map (withOut "PLUS + null")
    else if c = ',' then (recur cs line).map (withOut "COMMA , null")
    else if c = '-' then (recur cs line).map (withOut "MINUS - null")
    else if c = ';' then (recur cs line).map (withOut "SEMICOLON ; null")
    else if c = '/' then
      if cs.head? = some '/' then recur (skipComment cs.tail) line
      else (recur cs line).map (withOut "SLASH / null")
    else if c.isDigit then
      let r := rawNumber false cs
      let number := String.mk (c :: r.1)
      let valueStr :=
        if r.2.1 then format_float_value ((parseDecimal number).getD 0)
        else number ++ ".0"
      (recur r.2.2 line).map (withOut ("NUMBER " ++ number ++ " " ++ valueStr))
    else if c.isAlpha ∨ c = '_' then
      let r := rawIdent cs
      let ident := String.mk (c :: r.1)
      let lineOut :=
        match keywords.lookup ident with
        | some kw => kw ++ " " ++ ident ++ " null"
        | none => "IDENTIFIER " ++ ident ++ " null"
      (recur r.2 line).map (withOut lineOut)
    else if c = '"' then
      let r := tokStr cs
      if r.stop = .closed then
        (recur r.rest line).map
          (withOut ("STRING \"" ++ String.mk r.lit ++ "\" " ++ String.mk r.lit))
      else if r.stop = .newline then
        (recur r.rest line).map (withErr2 (unterminatedMsg line))
      else (recur r.rest line).map (withErr (unterminatedMsg line))
    else if c = '<' then
      if cs.head? = some '=' then (recur cs.tail line).map (withOut "LESS_EQUAL <= null")
      else (recur cs line).map (withOut "LESS < null")
    else if c = '>' then
      if cs.head? = some '=' then
        (recur cs.tail line).map (withOut "GREATER_EQUAL >= null")
      else (recur cs line).map (withOut "GREATER > null")
    else if c = '!' then
      if cs.head? = some '=' then (recur cs.tail line).map (withOut "BANG_EQUAL != null")
      else (recur cs line).map (withOut "BANG ! null")
    else if c = '=' then
      if cs.head? = some '=' then (recur cs.tail line).map (withOut "EQUAL_EQUAL == null")
      else (recur cs line).map (withOut "EQUAL = null")
    else if c = '\n' then recur cs (line + 1)
    else if c = ' ' ∨ c = '\t' ∨ c = '\r' then recur cs line
    else (recur cs line).map (withErr (unexpectedMsg line c))

/-- The main loop of Rust `tokenize`, walking the character list with the
current line number.  The fuel argument bounds the number of iterations;
`none` (fuel exhaustion) is unreachable once the fuel is at least the
length of the input, which is what the entry point supplies. -/
def tokenizeGo : Nat → List Char → Nat → Option TokOut
  | _, [], _ => some ⟨[], [], false⟩
  | 0, _ :: _, _ => none
  | fuel + 1, c :: cs, line => tokenizeStep (tokenizeGo fuel) c cs line

/-- Rust `tokenize`: run the scanner loop over the whole input starting at
line 1, then print the end-of-input line.  The default of `getD` is dead:
the loop is total for this fuel (proved below). -/
def tokenize (input : String) : TokOut :=
  let r := (tokenizeGo input.data.length input.data 1).getD ⟨[], [], false⟩
  ⟨r.out ++ ["EOF  null"], r.err, r.hadError⟩

/-- A raw scanner token (Rust `struct RawToken`). -/
structure RawToken where
  token_type : String
  lexeme : String
  line : Nat
deriving DecidableEq

/-- One iteration of the Rust `scan_raw_tokens` loop; `recur` is the rest
of the loop. -/
def scanRawStep (recur : List Char → Nat → Option (List RawToken × Nat)) (c : Char)
    (cs : List Char) (line : Nat) : Option (List RawToken × Nat) :=
    if c = '(' then
      (recur cs line).map (fun r => (⟨"LEFT_PAREN", "(", line⟩ :: r.1, r.2))
    else if c = ')' then
      (recur cs line).map (fun r => (⟨"RIGHT_PAREN", ")", line⟩ :: r.1, r.2))
    else if c = '"' then
      let s := rawStr cs line
      (recur s.rest s.line).map
        (fun r => (⟨"STRING", String.mk s.lit, s.line⟩ :: r.1, r.2))
    else if c.isDigit then
      let r := rawNumber false cs
      (recur r.2.2 line).map
        (fun t => (⟨"NUMBER", String.mk (c :: r.1), line⟩ :: t.1, t.2))
    else if c.isAlpha ∨ c = '_' then
      let r := rawIdent cs
      let ident := String.mk (c :: r.1)
      (recur r.2 line).map
        (fun t => (⟨identify_keyword ident, ident, line⟩ :: t.1, t.2))
    else if c = '\n' then recur cs (line + 1)
    else if c = ' ' ∨ c = '\r' ∨ c = '\t' then recur cs line
    else recur cs line

/-- The main loop of Rust `scan_raw_tokens`: collects raw tokens and
threads the line counter; characters outside its recognized classes are
silently ignored.  Fuel as in `tokenizeGo`. -/
def scanRawGo : Nat → List Char → Nat → Option (List RawToken × Nat)
  | _, [], line => some ([], line)
  | 0, _ :: _, _ => none
  | fuel + 1, c :: cs, line => scanRawStep (scanRawGo fuel) c cs line

/-- Rust `scan_raw_tokens`: run the raw scanner loop and append the single
end-of-input token.  The default of `getD` is dead: the loop is total for
this fuel (proved below). -/
def scan_raw_tokens (source : String) : List RawToken :=
  let r := (scanRawGo source.data.length source.data 1).getD ([], 1)
  r.1 ++ [⟨"EOF", "", r.2⟩]

/-- Rust `convert_token`: map a raw token to a parser token; `NUMBER`
lexemes are decoded with fallback 0 (Rust `unwrap_or(0.0)`), and every
unrecognized raw kind (in particular `IDENTIFIER`) becomes `Nil`. -/
def convert_token (rtok : RawToken) : Token :=
  let token_type :=
    match rtok.token_type with
    | "LEFT_PAREN" => TokenType.LeftParen
    | "RIGHT_PAREN" => TokenType.RightParen
    | "STRING" => TokenType.StringLit rtok.lexeme
    | "TRUE" => TokenType.True
    | "FALSE" => TokenType.False
    | "NIL" => TokenType.Nil
    | "NUMBER" => TokenType.Number ((parseDecimal rtok.lexeme).getD 0)
    | "EOF" => TokenType.Eof
    | _ => TokenType.Nil
  ⟨token_type, rtok.lexeme, rtok.line⟩

/-- The parser state (Rust `struct Parser`), extended with the list of
diagnostics its `error` method prints to stderr. -/
structure Parser where
  tokens : List Token
  current : Nat
  hadError : Bool
  errs : List String
deriving DecidableEq

/-- Rust `Parser::new`. -/
def Parser.new (tokens : List Token) : Parser := ⟨tokens, 0, false, []⟩

/-- Rust `Parser::peek_token`: the current token, or the last token of the
vector when the cursor is at or past the end; `none` models the panic on
an empty token vector (never produced by the pipeline). -/
def Parser.peek_token (p : Parser) : Option Token :=
  if p.tokens.length ≤ p.current then p.tokens.getLast?
  else p.tokens.get? p.current

/-- Rust `Parser::advance`: move the cursor forward, but never past the
length of the token vector. -/
def Parser.advance (p : Parser) : Parser :=
  if p.current < p.tokens.length then { p with current := p.current + 1 } else p

/-- Rust `Parser::error`: print `Parse error: {msg}` and set the flag. -/
def Parser.error (p : Parser) (msg : String) : Parser :=
  { p with hadError := true, errs := p.errs ++ ["Parse error: " ++ msg] }

/-- Rust `Parser::primary`.  The grouping branch recurses through
`expression`, which is just `primary`; the fuel bounds that recursion
depth and `none` models divergence (or the empty-vector panic of
`peek_token`).  For token vectors ending in `Eof` the fuel supplied by
`parse` is proved sufficient below. -/
def Parser.primary : Nat → Parser → Option (Expr × Parser)
  | 0, _ => none
  | fuel + 1, p =>
    match p.peek_token with
    | none => none
    | some tok =>
      match tok.token_type with
      | .True => some (.Literal (.Boolean true), p.advance)
      | .False => some (.Literal (.Boolean false), p.advance)
      | .Nil => some (.Literal .Nil, p.advance)
      | .Number n => some (.Literal (.Number n), p.advance)
      | .StringLit s => some (.Literal (.Str s), p.advance)
      | .LeftParen =>
        match Parser.primary fuel p.advance with
        | none => none
        | some (e, p1) =>
          match p1.peek_token with
          | none => none
          | some t2 =>
            if t2.token_type = .RightParen then some (.Grouping e, p1.advance)
            else some (.Grouping e, p1.error "Expected \x27)\x27 after expression.")
      | .RightParen => some (.Literal .Nil, p.error "Expected expression.")
      | .Eof => some (.Literal .Nil, p.error "Expected expression.")

/-- Rust `Parser::expression`: just `primary`. -/
def Parser.expression (fuel : Nat) (p : Parser) : Option (Expr × Parser) :=
  Parser.primary fuel p

/-- Rust `Parser::parse`: parse one expression and return it only when the
cumulative error flag is clear. -/
def Parser.parse (fuel : Nat) (p : Parser) : Option (Option Expr × Parser) :=
  match Parser.expression fuel p with
  | none => none
  | some (e, p1) => some (if p1.hadError then none else some e, p1)

/-- Rust `print_ast`: render an expression canonically. -/
def print_ast : Expr → String
  | .Literal (.Boolean b) => toString b
  | .Literal .Nil => "nil"
  | .Literal (.Number n) => format_float_value n
  | .Literal (.Str s) => "\"" ++ s ++ "\""
  | .Grouping sub => "(group " ++ print_ast sub ++ ")"

/-- Outcome of the top-level `parse` entry point: its boolean result, the
stdout line(s) produced on success, and the parse diagnostics. -/
structure ParseOut where
  hadError : Bool
  out : List String
  err : List String
deriving DecidableEq

/-- Rust top-level `parse`: scan raw tokens, convert them, run the parser
(with fuel one more than the token count, proved sufficient below), and
on success print the rendered AST; returns `true` exactly when the parser
recorded an error. -/
def parse (source : String) : Option ParseOut :=
  let parser_tokens := (scan_raw_tokens source).map convert_token
  match Parser.parse (parser_tokens.length + 1) (Parser.new parser_tokens) with
  | none => none
  | some (ast, p1) =>
    match ast with
    | none => some ⟨true, [], p1.errs⟩
    | some expr => some ⟨false, [print_ast expr], p1.errs⟩

/-! ### Scanner helper lemmas -/

theorem tokStr_rest_length (cs : List Char) : (tokStr cs).rest.length ≤ cs.length := by
  induction cs with
  | nil => simp [tokStr]
  | cons c cs ih =>
    simp only [tokStr]
    split
    · simp
    · split
      · simp
      · simpa using Nat.le_succ_of_le ih

theorem rawStr_rest_length (cs : List Char) :
    ∀ line, (rawStr cs line).rest.length ≤ cs.length := by
  induction cs with
  | nil => simp [rawStr]
  | cons c cs ih =>
    intro line
    simp only [rawStr]
    split
    · simp
    · simpa using Nat.le_succ_of_le (ih _)

theorem rawNumber_rest_length (cs : List Char) :
    ∀ f, (rawNumber f cs).2.2.length ≤ cs.length := by
  induction cs with
  | nil => intro f; simp [rawNumber]
  | cons c cs ih =>
    intro f
    simp only [rawNumber]
    split
    · simpa using Nat.le_succ_of_le (ih _)
    · split
      · simpa using Nat.le_succ_of_le (ih _)
      · simp

theorem rawIdent_rest_length (cs : List Char) : (rawIdent cs).2.length ≤ cs.length := by
  induction cs with
  | nil => simp [rawIdent]
  | cons c cs ih =>
    simp only [rawIdent]
    split
    · simpa using Nat.le_succ_of_le ih
    · simp

theorem skipComment_length (cs : List Char) : (skipComment cs).length ≤ cs.length := by
  induction cs with
  | nil => simp [skipComment]
  | cons c cs ih =>
    simp only [skipComment]
    split
    · simp
    · exact Nat.le_succ_of_le ih

theorem identify_keyword_ne_eof (s : String) : identify_keyword s ≠ "EOF" := by
  unfold identify_keyword
  split <;> simp

/-- Case analysis on an `if` producing an `Option`, avoiding any term
rewriting (the scanner bodies are large). -/
theorem isSome_of_ite {α : Type} (P : Prop) [Decidable P] (a b : Option α)
    (ha : P → a.isSome = true) (hb : ¬P → b.isSome = true) :
    (if P then a else b).isSome = true := by
  by_cases h : P
  · rw [if_pos h]; exact ha h
  · rw [if_neg h]; exact hb h

theorem isSome_map_of {α β : Type} (f : α → β) (o : Option α) (h : o.isSome = true) :
    (Option.map f o).isSome = true := by
  obtain ⟨r, hr⟩ := Option.isSome_iff_exists.mp h
  rw [hr]
  rfl

/-- The `tokenize` loop runs to completion whenever the fuel covers the
input length. -/
theorem tokenizeGo_total :
    ∀ (fuel : Nat) (cs : List Char) (line : Nat),
      cs.length ≤ fuel → (tokenizeGo fuel cs line).isSome = true := by
  intro fuel
  induction fuel with
  | zero =>
    intro cs line h
    cases cs with
    | nil => rfl
    | cons c cs => simp at h
  | succ fuel ih =>
    intro cs line h
    cases cs with
    | nil => rfl
    | cons c cs =>
      have hlen : cs.length ≤ fuel := by
        simpa using Nat.succ_le_succ_iff.mp (by simpa using h)
      have htail : cs.tail.length ≤ fuel :=
        le_trans (by simp) hlen
      have step : ∀ (X : List Char) (l2 : Nat) (f : TokOut → TokOut),
          X.length ≤ fuel → (Option.map f (tokenizeGo fuel X l2)).isSome = true :=
        fun X l2 f hX => isSome_map_of f _ (ih X l2 hX)
      rw [tokenizeGo, tokenizeStep]
      refine isSome_of_ite _ _ _ (fun _ => step _ _ _ hlen) (fun _ => ?_)
      refine isSome_of_ite _ _ _ (fun _ => step _ _ _ hlen) (fun _ => ?_)
      refine isSome_of_ite _ _ _ (fun _ => step _ _ _ hlen) (fun _ => ?_)
      refine isSome_of_ite _ _ _ (fun _ => step _ _ _ hlen) (fun _ => ?_)
      refine isSome_of_ite _ _ _ (fun _ => step _ _ _ hlen) (fun _ => ?_)
      refine isSome_of_ite _ _ _ (fun _ => step _ _ _ hlen) (fun _ => ?_)
      refine isSome_of_ite _ _ _ (fun _ => step _ _ _ hlen) (fun _ => ?_)
      refine isSome_of_ite _ _ _ (fun _ => step _ _ _ hlen) (fun _ => ?_)
      refine isSome_of_ite _ _ _ (fun _ => step _ _ _ hlen) (fun _ => ?_)
      refine isSome_of_ite _ _ _ (fun _ => step _ _ _ hlen) (fun _ => ?_)
      refine isSome_of_ite _ _ _
        (fun _ => isSome_of_ite _ _ _
          (fun _ => ih _ _ (le_trans (skipComment_length _) htail))
          (fun _ => step _ _ _ hlen))
        (fun _ => ?_)
      refine isSome_of_ite _ _ _
        (fun _ => step _ _ _ (le_trans (rawNumber_rest_length _ _) hlen)) (fun _ => ?_)
      refine isSome_of_ite _ _ _
        (fun _ => step _ _ _ (le_trans (rawIdent_rest_length _) hlen)) (fun _ => ?_)
      refine isSome_of_ite _ _ _
        (fun _ => isSome_of_ite _ _ _
          (fun _ => step _ _ _ (le_trans (tokStr_rest_length _) hlen))
          (fun _ => isSome_of_ite _ _ _
            (fun _ => step _ _ _ (le_trans (tokStr_rest_length _) hlen))
            (fun _ => step _ _ _ (le_trans (tokStr_rest_length _) hlen))))
        (fun _ => ?_)
      refine isSome_of_ite _ _ _
        (fun _ => isSome_of_ite _ _ _ (fun _ => step _ _ _ htail) (fun _ => step _ _ _ hlen))
        (fun _ => ?_)
      refine isSome_of_ite _ _ _
        (fun _ => isSome_of_ite _ _ _ (fun _ => step _ _ _ htail) (fun _ => step _ _ _ hlen))
        (fun _ => ?_)
      refine isSome_of_ite _ _ _
        (fun _ => isSome_of_ite _ _ _ (fun _ => step _ _ _ htail) (fun _ => step _ _ _ hlen))
        (fun _ => ?_)
      refine isSome_of_ite _ _ _
        (fun _ => isSome_of_ite _ _ _ (fun _ => step _ _ _ htail) (fun _ => step _ _ _ hlen))
        (fun _ => ?_)
      refine isSome_of_ite _ _ _ (fun _ => ih _ _ hlen) (fun _ => ?_)
      refine isSome_of_ite _ _ _ (fun _ => ih _ _ hlen) (fun _ => ?_)
      exact step _ _ _ hlen

/-- The `scan_raw_tokens` loop runs to completion whenever the fuel covers
the input length. -/
theorem scanRawGo_total :
    ∀ (fuel : Nat) (cs : List Char) (line : Nat),
      cs.length ≤ fuel → (scanRawGo fuel cs line).isSome = true := by
  intro fuel
  induction fuel with
  | zero =>
    intro cs line h
    cases cs with
    | nil => rfl
    | cons c cs => simp at h
  | succ fuel ih =>
    intro cs line h
    cases cs with
    | nil => rfl
    | cons c cs =>
      have hlen : cs.length ≤ fuel := by
        simpa using Nat.succ_le_succ_iff.mp (by simpa using h)
      have step : ∀ (X : List Char) (l2 : Nat)
          (f : List RawToken × Nat → List RawToken × Nat),
          X.length ≤ fuel → (Option.map f (scanRawGo fuel X l2)).isSome = true :=
        fun X l2 f hX => isSome_map_of f _ (ih X l2 hX)
      rw [scanRawGo, scanRawStep]
      refine isSome_of_ite _ _ _ (fun _ => step _ _ _ hlen) (fun _ => ?_)
      refine isSome_of_ite _ _ _ (fun _ => step _ _ _ hlen) (fun _ => ?_)
      refine isSome_of_ite _ _ _
        (fun _ => step _ _ _ (le_trans (rawStr_rest_length _ _) hlen)) (fun _ => ?_)
      refine isSome_of_ite _ _ _
        (fun _ => step _ _ _ (le_trans (rawNumber_rest_length _ _) hlen)) (fun _ => ?_)
      refine isSome_of_ite _ _ _
        (fun _ => step _ _ _ (le_trans (rawIdent_rest_length _) hlen)) (fun _ => ?_)
      refine isSome_of_ite _ _ _ (fun _ => ih _ _ hlen) (fun _ => ?_)
      refine isSome_of_ite _ _ _ (fun _ => ih _ _ hlen) (fun _ => ?_)
      exact ih _ _ hlen

/-- Case analysis on an `if` under an arbitrary predicate, with the
predicate given explicitly so that no large term is rewritten. -/
theorem ite_cases {α : Type} (motive : α → Prop) (P : Prop) [Decidable P] (a b : α)
    (ha : P → motive a) (hb : ¬P → motive b) : motive (if P then a else b) := by
  by_cases h : P
  · rw [if_pos h]; exact ha h
  · rw [if_neg h]; exact hb h

/-- Classification of one `scan_raw_tokens` step: it either recurses
directly, or prepends a single raw token whose kind is not `EOF` to the
recursive result. -/
def RawShape (recur : List Char → Nat → Option (List RawToken × Nat))
    (x : Option (List RawToken × Nat)) : Prop :=
  (∃ X l2, x = recur X l2) ∨
  (∃ tok X l2, x = Option.map (fun r => (tok :: r.1, r.2)) (recur X l2) ∧
    RawToken.token_type tok ≠ "EOF")

theorem scanRawStep_shape (recur : List Char → Nat → Option (List RawToken × Nat))
    (c : Char) (cs : List Char) (line : Nat) :
    RawShape recur (scanRawStep recur c cs line) := by
  rw [scanRawStep]
  refine ite_cases (RawShape recur) _ _ _
    (fun _ => Or.inr ⟨_, _, _, rfl, by simp⟩) (fun _ => ?_)
  refine ite_cases (RawShape recur) _ _ _
    (fun _ => Or.inr ⟨_, _, _, rfl, by simp⟩) (fun _ => ?_)
  refine ite_cases (RawShape recur) _ _ _
    (fun _ => Or.inr ⟨_, _, _, rfl, by simp⟩) (fun _ => ?_)
  refine ite_cases (RawShape recur) _ _ _
    (fun _ => Or.inr ⟨_, _, _, rfl, by simp⟩) (fun _ => ?_)
  refine ite_cases (RawShape recur) _ _ _
    (fun _ => Or.inr ⟨_, _, _, rfl, identify_keyword_ne_eof _⟩) (fun _ => ?_)
  refine ite_cases (RawShape recur) _ _ _ (fun _ => Or.inl ⟨_, _, rfl⟩) (fun _ => ?_)
  refine ite_cases (RawShape recur) _ _ _ (fun _ => Or.inl ⟨_, _, rfl⟩) (fun _ => ?_)
  exact Or.inl ⟨_, _, rfl⟩

/-- No token emitted by the `scan_raw_tokens` loop has kind `EOF`; the
single `EOF` token is appended only afterwards. -/
theorem scanRawGo_no_eof :
    ∀ (fuel : Nat) (cs : List Char) (line : Nat) (r : List RawToken × Nat),
      scanRawGo fuel cs line = some r →
      ∀ t ∈ r.1, RawToken.token_type t ≠ "EOF" := by
  intro fuel
  induction fuel with
  | zero =>
    intro cs line r h
    cases cs with
    | nil =>
      cases h
      simp
    | cons c cs => cases h
  | succ fuel ih =>
    intro cs line r h
    cases cs with
    | nil =>
      cases h
      simp
    | cons c cs =>
      rw [scanRawGo] at h
      rcases scanRawStep_shape (scanRawGo fuel) c cs line with ⟨X, l2, heq⟩ |
        ⟨tok, X, l2, heq, hne⟩
      · rw [heq] at h
        exact ih X l2 r h
      · rw [heq] at h
        obtain ⟨a, ha, hfa⟩ := Option.map_eq_some'.mp h
        intro t ht
        rw [← hfa] at ht
        rcases List.mem_cons.mp ht with rfl | hmem
        · exact hne
        · exact ih X l2 a ha t hmem

/-- Classification of one `tokenize` step: it either recurses directly, or
maps the recursive result by a function that can only prepend stdout
lines and well-shaped diagnostics. -/
def TokShape (recur : List Char → Nat → Option TokOut) (x : Option TokOut) : Prop :=
  (∃ X l2, x = recur X l2) ∨
  (∃ X l2 f, x = Option.map f (recur X l2) ∧
    ∀ r : TokOut, TokOut.err (f r) = r.err ∨
      (∃ n, TokOut.err (f r) = unterminatedMsg n :: r.err) ∨
      (∃ n, TokOut.err (f r) = unterminatedMsg n :: unterminatedMsg n :: r.err) ∨
      (∃ n c2, TokOut.err (f r) = unexpectedMsg n c2 :: r.err))

theorem tokenizeStep_shape (recur : List Char → Nat → Option TokOut)
    (c : Char) (cs : List Char) (line : Nat) :
    TokShape recur (tokenizeStep recur c cs line) := by
  rw [tokenizeStep]
  refine ite_cases (TokShape recur) _ _ _
    (fun _ => Or.inr ⟨_, _, _, rfl, fun r => Or.inl rfl⟩) (fun _ => ?_)
  refine ite_cases (TokShape recur) _ _ _
    (fun _ => Or.inr ⟨_, _, _, rfl, fun r => Or.inl rfl⟩) (fun _ => ?_)
  refine ite_cases (TokShape recur) _ _ _
    (fun _ => Or.inr ⟨_, _, _, rfl, fun r => Or.inl rfl⟩) (fun _ => ?_)
  refine ite_cases (TokShape recur) _ _ _
    (fun _ => Or.inr ⟨_, _, _, rfl, fun r => Or.inl rfl⟩) (fun _ => ?_)
  refine ite_cases (TokShape recur) _ _ _
    (fun _ => Or.inr ⟨_, _, _, rfl, fun r => Or.inl rfl⟩) (fun _ => ?_)
  refine ite_cases (TokShape recur) _ _ _
    (fun _ => Or.inr ⟨_, _, _, rfl, fun r => Or.inl rfl⟩) (fun _ => ?_)
  refine ite_cases (TokShape recur) _ _ _
    (fun _ => Or.inr ⟨_, _, _, rfl, fun r => Or.inl rfl⟩) (fun _ => ?_)
  refine ite_cases (TokShape recur) _ _ _
    (fun _ => Or.inr ⟨_, _, _, rfl, fun r => Or.inl rfl⟩) (fun _ => ?_)
  refine ite_cases (TokShape recur) _ _ _
    (fun _ => Or.inr ⟨_, _, _, rfl, fun r => Or.inl rfl⟩) (fun _ => ?_)
  refine ite_cases (TokShape recur) _ _ _
    (fun _ => Or.inr ⟨_, _, _, rfl, fun r => Or.inl rfl⟩) (fun _ => ?_)
  refine ite_cases (TokShape recur) _ _ _
    (fun _ => ite_cases (TokShape recur) _ _ _
      (fun _ => Or.inl ⟨_, _, rfl⟩)
      (fun _ => Or.inr ⟨_, _, _, rfl, fun r => Or.inl rfl⟩))
    (fun _ => ?_)
  refine ite_cases (TokShape recur) _ _ _
    (fun _ => Or.inr ⟨_, _, _, rfl, fun r => Or.inl rfl⟩) (fun _ => ?_)
  refine ite_cases (TokShape recur) _ _ _
    (fun _ => Or.inr ⟨_, _, _, rfl, fun r => Or.inl rfl⟩) (fun _ => ?_)
  refine ite_cases (TokShape recur) _ _ _
    (fun _ => ite_cases (TokShape recur) _ _ _
      (fun _ => Or.inr ⟨_, _, _, rfl, fun r => Or.inl rfl⟩)
      (fun _ => ite_cases (TokShape recur) _ _ _
        (fun _ => Or.inr ⟨_, _, _, rfl, fun r => Or.inr (Or.inr (Or.inl ⟨line, rfl⟩))⟩)
        (fun _ => Or.inr ⟨_, _, _, rfl, fun r => Or.inr (Or.inl ⟨line, rfl⟩)⟩)))
    (fun _ => ?_)
  refine ite_cases (TokShape recur) _ _ _
    (fun _ => ite_cases (TokShape recur) _ _ _
      (fun _ => Or.inr ⟨_, _, _, rfl, fun r => Or.inl rfl⟩)
      (fun _ => Or.inr ⟨_, _, _, rfl, fun r => Or.inl rfl⟩))
    (fun _ => ?_)
  refine ite_cases (TokShape recur) _ _ _
    (fun _ => ite_cases (TokShape recur) _ _ _
      (fun _ => Or.inr ⟨_, _, _, rfl, fun r => Or.inl rfl⟩)
      (fun _ => Or.inr ⟨_, _, _, rfl, fun r => Or.inl rfl⟩))
    (fun _ => ?_)
  refine ite_cases (TokShape recur) _ _ _
    (fun _ => ite_cases (TokShape recur) _ _ _
      (fun _ => Or.inr ⟨_, _, _, rfl, fun r => Or.inl rfl⟩)
      (fun _ => Or.inr ⟨_, _, _, rfl, fun r => Or.inl rfl⟩))
    (fun _ => ?_)
  refine ite_cases (TokShape recur) _ _ _
    (fun _ => ite_cases (TokShape recur) _ _ _
      (fun _ => Or.inr ⟨_, _, _, rfl, fun r => Or.inl rfl⟩)
      (fun _ => Or.inr ⟨_, _, _, rfl, fun r => Or.inl rfl⟩))
    (fun _ => ?_)
  refine ite_cases (TokShape recur) _ _ _ (fun _ => Or.inl ⟨_, _, rfl⟩) (fun _ => ?_)
  refine ite_cases (TokShape recur) _ _ _ (fun _ => Or.inl ⟨_, _, rfl⟩) (fun _ => ?_)
  exact Or.inr ⟨_, _, _, rfl, fun r => Or.inr (Or.inr (Or.inr ⟨line, c, rfl⟩))⟩

/-- Every diagnostic accumulated by the `tokenize` loop is either an
`Unterminated string` message or an `Unexpected character` message. -/
theorem tokenizeGo_err_shape :
    ∀ (fuel : Nat) (cs : List Char) (line : Nat) (r : TokOut),
      tokenizeGo fuel cs line = some r →
      ∀ e ∈ r.err, (∃ n, e = unterminatedMsg n) ∨ (∃ n c2, e = unexpectedMsg n c2) := by
  intro fuel
  induction fuel with
  | zero =>
    intro cs line r h
    cases cs with
    | nil =>
      cases h
      simp
    | cons c cs => cases h
  | succ fuel ih =>
    intro cs line r h
    cases cs with
    | nil =>
      cases h
      simp
    | cons c cs =>
      rw [tokenizeGo] at h
      rcases tokenizeStep_shape (tokenizeGo fuel) c cs line with ⟨X, l2, heq⟩ |
        ⟨X, l2, f, heq, hf⟩
      · rw [heq] at h
        exact ih X l2 r h
      · rw [heq] at h
        obtain ⟨a, ha, hfa⟩ := Option.map_eq_some'.mp h
        intro e he
        rw [← hfa] at he
        have htail : ∀ e2 ∈ a.err,
            (∃ n, e2 = unterminatedMsg n) ∨ (∃ n c2, e2 = unexpectedMsg n c2) :=
          ih X l2 a ha
        rcases hf a with hsame | ⟨n, hone⟩ | ⟨n, htwo⟩ | ⟨n, c2, hchar⟩
        · rw [hsame] at he
          exact htail e he
        · rw [hone] at he
          rcases List.mem_cons.mp he with rfl | hmem
          · exact Or.inl ⟨n, rfl⟩
          · exact htail e hmem
        · rw [htwo] at he
          rcases List.mem_cons.mp he with rfl | hmem
          · exact Or.inl ⟨n, rfl⟩
          · rcases List.mem_cons.mp hmem with rfl | hmem2
            · exact Or.inl ⟨n, rfl⟩
            · exact htail e hmem2
        · rw [hchar] at he
          rcases List.mem_cons.mp he with rfl | hmem
          · exact Or.inr ⟨n, c2, rfl⟩
          · exact htail e hmem

/-! ### Parser lemmas -/

theorem Parser.advance_tokens (p : Parser) : p.advance.tokens = p.tokens := by
  unfold Parser.advance
  split <;> rfl

theorem Parser.error_tokens (p : Parser) (m : String) : (p.error m).tokens = p.tokens := rfl

theorem Parser.error_current (p : Parser) (m : String) : (p.error m).current = p.current := rfl

theorem Parser.peek_token_isSome (p : Parser) (h : p.tokens ≠ []) :
    ∃ t, p.peek_token = some t := by
  unfold Parser.peek_token
  split
  · exact Option.isSome_iff_exists.mp (by rwa [List.getLast?_isSome])
  · rename_i hge
    push_neg at hge
    exact ⟨p.tokens.get ⟨p.current, hge⟩, List.get?_eq_get hge⟩

/-- `primary` never changes the token vector. -/
theorem Parser.primary_tokens :
    ∀ (fuel : Nat) (p : Parser) (e : Expr) (p1 : Parser),
      Parser.primary fuel p = some (e, p1) → p1.tokens = p.tokens := by
  intro fuel
  induction fuel with
  | zero =>
    intro p e p1 h
    exact Option.noConfusion h
  | succ fuel ih =>
    intro p e p1 h
    rw [Parser.primary] at h
    split at h
    · exact Option.noConfusion h
    · rename_i tok hpk
      split at h
      · cases h; exact p.advance_tokens
      · cases h; exact p.advance_tokens
      · cases h; exact p.advance_tokens
      · cases h; exact p.advance_tokens
      · cases h; exact p.advance_tokens
      · cases hin : Parser.primary fuel p.advance with
        | none =>
          rw [hin] at h
          exact Option.noConfusion h
        | some pair =>
          obtain ⟨e2, p2⟩ := pair
          rw [hin] at h
          dsimp only at h
          cases hpk2 : p2.peek_token with
          | none =>
            rw [hpk2] at h
            exact Option.noConfusion h
          | some t2 =>
            rw [hpk2] at h
            dsimp only at h
            have hmid : p2.tokens = p.tokens := by
              rw [ih p.advance e2 p2 hin]
              exact p.advance_tokens
            by_cases hrp : t2.token_type = TokenType.RightParen
            · rw [if_pos hrp] at h
              cases h
              rw [p2.advance_tokens]
              exact hmid
            · rw [if_neg hrp] at h
              cases h
              rw [p2.error_tokens]
              exact hmid
      · cases h; exact p.error_tokens _
      · cases h; exact p.error_tokens _

/-- With an `Eof`-terminated token vector, `primary` succeeds as soon as
the fuel exceeds the number of tokens left of the cursor: the grouping
recursion strictly increases the cursor, which stays left of the final
`Eof`. -/
theorem Parser.primary_total :
    ∀ (fuel : Nat) (p : Parser) (t : Token),
      p.tokens.getLast? = some t → t.token_type = .Eof →
      p.tokens.length - p.current < fuel → (Parser.primary fuel p).isSome = true := by
  intro fuel
  induction fuel with
  | zero =>
    intro p t hlast ht hbound
    omega
  | succ fuel ih =>
    intro p t hlast ht hbound
    have hne : p.tokens ≠ [] := by
      intro hnil
      rw [hnil] at hlast
      exact Option.noConfusion hlast
    obtain ⟨tok, hpk⟩ := p.peek_token_isSome hne
    rw [Parser.primary, hpk]
    dsimp only
    cases htt : tok.token_type with
    | LeftParen =>
      dsimp only
      have hlt : p.current < p.tokens.length := by
        by_contra hge
        push_neg at hge
        have hpeek : p.peek_token = p.tokens.getLast? := by
          unfold Parser.peek_token
          rw [if_pos hge]
        rw [hpk, hlast] at hpeek
        cases hpeek
        rw [ht] at htt
        exact TokenType.noConfusion htt
      have hadv : p.advance = { p with current := p.current + 1 } := by
        unfold Parser.advance
        rw [if_pos hlt]
      have hrec : (Parser.primary fuel p.advance).isSome = true := by
        refine ih p.advance t ?_ ht ?_
        · rw [p.advance_tokens]
          exact hlast
        · rw [p.advance_tokens, hadv]
          simp only
          omega
      obtain ⟨pair, hin⟩ := Option.isSome_iff_exists.mp hrec
      obtain ⟨e2, p2⟩ := pair
      rw [hin]
      dsimp only
      have hp2 : p2.tokens = p.tokens := by
        rw [Parser.primary_tokens fuel p.advance e2 p2 hin]
        exact p.advance_tokens
      have hp2ne : p2.tokens ≠ [] := by
        rw [hp2]
        exact hne
      obtain ⟨t2, hpk2⟩ := p2.peek_token_isSome hp2ne
      rw [hpk2]
      dsimp only
      split <;> rfl
    | RightParen => rfl
    | Number n => rfl
    | StringLit s => rfl
    | True => rfl
    | False => rfl
    | Nil => rfl
    | Eof => rfl

/-! ### Consumption lemmas for whole-token inputs -/

theorem tokStr_all (cs : List Char) (hq : '"' ∉ cs) (hn : '\n' ∉ cs) :
    tokStr cs = ⟨cs, [], .atEnd⟩ := by
  induction cs with
  | nil => rfl
  | cons c cs ih =>
    rw [tokStr]
    rw [if_neg (by intro hc; exact hq (hc ▸ List.mem_cons_self c cs))]
    rw [if_neg (by intro hc; exact hn (hc ▸ List.mem_cons_self c cs))]
    rw [ih (fun hm => hq (List.mem_cons_of_mem c hm)) (fun hm => hn (List.mem_cons_of_mem c hm))]

theorem rawStr_all (cs : List Char) (line : Nat) (hq : '"' ∉ cs) (hn : '\n' ∉ cs) :
    rawStr cs line = ⟨cs, [], line, true⟩ := by
  induction cs with
  | nil => rfl
  | cons c cs ih =>
    rw [rawStr]
    rw [if_neg (by intro hc; exact hq (hc ▸ List.mem_cons_self c cs))]
    have hcn : ¬(c = '\n') := by intro hc; exact hn (hc ▸ List.mem_cons_self c cs)
    rw [if_neg hcn]
    dsimp only
    rw [ih (fun hm => hq (List.mem_cons_of_mem c hm)) (fun hm => hn (List.mem_cons_of_mem c hm))]

theorem rawNumber_digits (cs : List Char) :
    ∀ f, (∀ c ∈ cs, c.isDigit = true) → rawNumber f cs = (cs, f, []) := by
  induction cs with
  | nil => intro f _; rfl
  | cons c cs ih =>
    intro f hd
    rw [rawNumber]
    rw [if_pos (hd c (List.mem_cons_self c cs))]
    rw [ih f (fun x hm => hd x (List.mem_cons_of_mem c hm))]

/-! ### Claim theorems -/

/-- C1, counterexample: for the source `"hi` — an unterminated string
literal, a lexical error which the reference scanner `tokenize` reports
with its error flag — the `parse` entry point nonetheless returns `false`
(no error) and prints the string as though it were terminated, refuting
the claim that `parse` reports lexical errors. -/
theorem parse_true_on_lexical_error_refuted :
    (tokenize "\"hi").hadError = true ∧
    parse "\"hi" = some ⟨false, ["\"hi\""], []⟩ := ⟨rfl, rfl⟩

/-- C1, amended: the boolean result of `parse` reports parser-level
errors only.  The raw scanner `scan_raw_tokens` that `parse` uses reports
no lexical errors: for every unterminated string source `"s` (no closing
quote, no newline) — flagged as a lexical error by `tokenize` — `parse`
returns `false` and prints the string as if it were terminated. -/
theorem parse_flag_ignores_lexical_errors (s : String)
    (hq : '"' ∉ s.data) (hn : '\n' ∉ s.data) :
    (tokenize ("\"" ++ s)).hadError = true ∧
    parse ("\"" ++ s) = some ⟨false, ["\"" ++ s ++ "\""], []⟩ := by
  have hdata : ("\"" ++ s).data = '"' :: s.data := by simp
  constructor
  · unfold tokenize
    rw [hdata, List.length_cons, tokenizeGo, tokenizeStep, tokStr_all s.data hq hn]
    simp [tokenizeGo, withErr]
  · unfold parse
    have hscan : scan_raw_tokens ("\"" ++ s) = [⟨"STRING", s, 1⟩, ⟨"EOF", "", 1⟩] := by
      unfold scan_raw_tokens
      rw [hdata, List.length_cons, scanRawGo, scanRawStep, rawStr_all s.data 1 hq hn]
      simp [scanRawGo]
    rw [hscan]
    rfl

/-- Witness for the amended C1 at the concrete source `"hi`. -/
theorem parse_flag_ignores_lexical_errors_wit :
    (tokenize ("\"" ++ "hi")).hadError = true ∧
    parse ("\"" ++ "hi") = some ⟨false, ["\"" ++ "hi" ++ "\""], []⟩ :=
  parse_flag_ignores_lexical_errors "hi" (by decide) (by decide)

/-- C2, counterexample: an identifier does not make `primary` report
`Expected expression`: `convert_token` maps the raw `IDENTIFIER` token to
the `Nil` token kind, so the source `foo` parses silently as the literal
`nil` with no error and an advanced cursor, refuting the claim for
identifiers (and likewise for the keywords other than true/false/nil). -/
theorem primary_identifier_error_refuted :
    scan_raw_tokens "foo" = [⟨"IDENTIFIER", "foo", 1⟩, ⟨"EOF", "", 1⟩] ∧
    convert_token ⟨"IDENTIFIER", "foo", 1⟩ = ⟨TokenType.Nil, "foo", 1⟩ ∧
    parse "foo" = some ⟨false, ["nil"], []⟩ := ⟨rfl, rfl, rfl⟩

/-- C2, amended: `primary` reports `Expected expression` exactly on the
`RightParen` and `Eof` token kinds — the only non-literal, non-grouping
kinds its token type has — producing the placeholder `Nil` literal,
setting the flag, emitting the diagnostic, and leaving the cursor in
place; identifier and other-keyword lexemes never reach `primary` as
such, because `convert_token` turns every unrecognized raw kind into the
`Nil` token kind. -/
theorem primary_expected_expression_rparen_eof (fuel : Nat) (p : Parser) (t : Token)
    (hpk : p.peek_token = some t)
    (ht : t.token_type = TokenType.RightParen ∨ t.token_type = TokenType.Eof) :
    Parser.primary (fuel + 1) p =
      some (Expr.Literal LitValue.Nil, p.error "Expected expression.") ∧
    (p.error "Expected expression.").current = p.current ∧
    (p.error "Expected expression.").hadError = true ∧
    (p.error "Expected expression.").errs = p.errs ++ ["Parse error: Expected expression."] ∧
    ∀ (lex : String) (n : Nat), convert_token ⟨"IDENTIFIER", lex, n⟩ = ⟨TokenType.Nil, lex, n⟩ := by
  rw [Parser.primary, hpk]
  dsimp only
  rcases ht with h | h <;> rw [h] <;>
    exact ⟨rfl, rfl, rfl, rfl, fun lex n => rfl⟩

/-- Witness for the amended C2 on the one-token vector `[Eof]`. -/
theorem primary_expected_expression_rparen_eof_wit :
    Parser.primary 1 (Parser.new [⟨TokenType.Eof, "", 1⟩]) =
      some (Expr.Literal LitValue.Nil,
        (Parser.new [⟨TokenType.Eof, "", 1⟩]).error "Expected expression.") ∧
    ((Parser.new [⟨TokenType.Eof, "", 1⟩]).error "Expected expression.").current =
      (Parser.new [⟨TokenType.Eof, "", 1⟩]).current ∧
    ((Parser.new [⟨TokenType.Eof, "", 1⟩]).error "Expected expression.").hadError = true ∧
    ((Parser.new [⟨TokenType.Eof, "", 1⟩]).error "Expected expression.").errs =
      (Parser.new [⟨TokenType.Eof, "", 1⟩]).errs ++ ["Parse error: Expected expression."] ∧
    ∀ (lex : String) (n : Nat), convert_token ⟨"IDENTIFIER", lex, n⟩ = ⟨TokenType.Nil, lex, n⟩ :=
  primary_expected_expression_rparen_eof 0 (Parser.new [⟨TokenType.Eof, "", 1⟩])
    ⟨TokenType.Eof, "", 1⟩ rfl (Or.inr rfl)

/-- C3: on the source `"a` followed by a newline, the string loop of
`tokenize` breaks at the newline and reports `Unterminated string`, but
leaves the `unterminated` flag set, so the check after the loop reports
the same diagnostic a second time: the error is printed twice, not
exactly once as the specification states (the end-of-input path prints it
once, as claim C1 exercises). -/
theorem unterminated_string_double_report :
    tokenize "\"a\n" =
      ⟨["EOF  null"],
       ["[line 1] Error: Unterminated string.", "[line 1] Error: Unterminated string."],
       true⟩ := rfl

/-- C4, counterexample: the integer branch of `tokenize` prints the raw
lexeme with `.0` appended rather than the canonical formatting of the
decoded value: the lexeme `007` prints `007.0`, while the canonical form
of its decoded value is `7.0`. -/
theorem number_leading_zero_refuted :
    tokenize "007" = ⟨["NUMBER 007 007.0", "EOF  null"], [], false⟩ ∧
    format_float_value ((parseDecimal "007").getD 0) = "7.0" ∧
    "NUMBER 007 007.0" ≠ "NUMBER 007 " ++ format_float_value ((parseDecimal "007").getD 0) := by
  refine ⟨rfl, ?_, ?_⟩ <;> decide

/-- C4, amended: for every NUMBER token whose lexeme carries no decimal
point, the printed literal value is the exact lexeme with `.0` appended
(so `007` prints `007.0`) — which is the canonical form only when the
lexeme has no redundant leading zeros; only dotted lexemes are decoded
and formatted via `format_float_value`. -/
theorem integer_lexeme_value_verbatim (s : String)
    (hne : s.data ≠ []) (hd : ∀ c ∈ s.data, c.isDigit = true) :
    tokenize s = ⟨["NUMBER " ++ s ++ " " ++ (s ++ ".0"), "EOF  null"], [], false⟩ := by
  obtain ⟨c, ds, hcons⟩ : ∃ c ds, s.data = c :: ds := by
    cases hcd : s.data with
    | nil => exact absurd hcd hne
    | cons c ds => exact ⟨c, ds, rfl⟩
  have hcdig : c.isDigit = true := hd c (hcons ▸ List.mem_cons_self c ds)
  have hdig : ∀ x ∈ ds, x.isDigit = true := fun x hm => hd x (hcons ▸ List.mem_cons_of_mem c hm)
  have hnotc : ∀ y : Char, y.isDigit = false → ¬(c = y) := by
    intro y hy hc
    rw [hc] at hcdig
    rw [hcdig] at hy
    exact Bool.noConfusion hy
  have hs : String.mk (c :: ds) = s := by rw [← hcons]
  unfold tokenize
  rw [hcons, List.length_cons, tokenizeGo, tokenizeStep]
  rw [if_neg (hnotc '(' (by decide)), if_neg (hnotc ')' (by decide)),
    if_neg (hnotc '\x7b' (by decide)), if_neg (hnotc '\x7d' (by decide)),
    if_neg (hnotc '*' (by decide)), if_neg (hnotc '.' (by decide)),
    if_neg (hnotc '+' (by decide)), if_neg (hnotc ',' (by decide)),
    if_neg (hnotc '-' (by decide)), if_neg (hnotc ';' (by decide)),
    if_neg (hnotc '/' (by decide)), if_pos hcdig]
  rw [rawNumber_digits ds false hdig]
  dsimp only
  rw [tokenizeGo]
  rw [hs]
  rfl

/-- Witness for the amended C4 at the lexeme `007`. -/
theorem integer_lexeme_value_verbatim_wit :
    tokenize "007" =
      ⟨["NUMBER " ++ "007" ++ " " ++ ("007" ++ ".0"), "EOF  null"], [], false⟩ :=
  integer_lexeme_value_verbatim "007" (by decide) (by decide)

/-- C5: the AST printer is total with the claimed clause-by-clause
mapping (integral numbers print as `<integer>.0`), and the end-to-end
pipeline prints `true` for `true`, `(group true)` for `(true)`, and
`(group "hi")` for `("hi")`. -/
theorem print_ast_mapping_and_roundtrip :
    (∀ b : Bool, print_ast (Expr.Literal (LitValue.Boolean b)) = if b then "true" else "false") ∧
    print_ast (Expr.Literal LitValue.Nil) = "nil" ∧
    (∀ n : ℤ, print_ast (Expr.Literal (LitValue.Number (n : ℚ))) = toString n ++ ".0") ∧
    (∀ s : String, print_ast (Expr.Literal (LitValue.Str s)) = "\"" ++ s ++ "\"") ∧
    (∀ e : Expr, print_ast (Expr.Grouping e) = "(group " ++ print_ast e ++ ")") ∧
    parse "true" = some ⟨false, ["true"], []⟩ ∧
    parse "(true)" = some ⟨false, ["(group true)"], []⟩ ∧
    parse "(\"hi\")" = some ⟨false, ["(group \"hi\")"], []⟩ := by
  refine ⟨fun b => ?_, rfl, fun n => ?_, fun s => rfl, fun e => rfl, rfl, rfl, rfl⟩
  · cases b <;> rfl
  · show format_float_value ((n : ℚ)) = toString n ++ ".0"
    unfold format_float_value
    rw [if_pos (Rat.den_intCast n), Rat.num_intCast]

/-- C6: when `primary` has consumed `(` and parsed the inner expression
but the current token is not `)`, it records `Expected \x27)\x27 after
expression.` and still wraps the inner expression in a `Grouping`; and
`Parser::parse` returns no AST exactly when the cumulative flag is set. -/
theorem grouping_recovery_and_parse_none_iff :
    (∀ (fuel : Nat) (p : Parser) (t : Token) (e : Expr) (p1 : Parser) (t2 : Token),
      p.peek_token = some t → t.token_type = TokenType.LeftParen →
      Parser.primary fuel p.advance = some (e, p1) →
      p1.peek_token = some t2 → t2.token_type ≠ TokenType.RightParen →
      Parser.primary (fuel + 1) p =
        some (Expr.Grouping e, p1.error "Expected \x27)\x27 after expression.")) ∧
    (∀ (fuel : Nat) (p : Parser) (ast : Option Expr) (p1 : Parser),
      Parser.parse fuel p = some (ast, p1) → (ast = none ↔ p1.hadError = true)) := by
  constructor
  · intro fuel p t e p1 t2 hpk htt hin hpk2 hne
    rw [Parser.primary, hpk]
    dsimp only
    rw [htt]
    dsimp only
    rw [hin]
    dsimp only
    rw [hpk2]
    dsimp only
    rw [if_neg hne]
  · intro fuel p ast p1 h
    unfold Parser.parse Parser.expression at h
    cases hpr : Parser.primary fuel p with
    | none =>
      rw [hpr] at h
      exact Option.noConfusion h
    | some pair =>
      obtain ⟨e, p2⟩ := pair
      rw [hpr] at h
      dsimp only at h
      cases h
      by_cases hhe : p1.hadError = true
      · rw [if_pos hhe]
        simp [hhe]
      · rw [if_neg hhe]
        simp [hhe]

/-- Witness for C6 on the token vector `(true` (missing `)`): the
grouping is still produced with the error recorded, and `Parser::parse`
instances of the iff at both flag values. -/
theorem grouping_recovery_and_parse_none_iff_wit :
    Parser.primary 2 (Parser.new [⟨TokenType.LeftParen, "(", 1⟩, ⟨TokenType.True, "true", 1⟩,
        ⟨TokenType.Eof, "", 1⟩]) =
      some (Expr.Grouping (Expr.Literal (LitValue.Boolean true)),
        Parser.error ⟨[⟨TokenType.LeftParen, "(", 1⟩, ⟨TokenType.True, "true", 1⟩,
          ⟨TokenType.Eof, "", 1⟩], 2, false, []⟩ "Expected \x27)\x27 after expression.") ∧
    (none = (none : Option Expr) ↔
      (Parser.error ⟨[⟨TokenType.Eof, "", 1⟩], 0, false, []⟩ "Expected expression.").hadError = true) := by
  constructor
  · exact grouping_recovery_and_parse_none_iff.1 1
      (Parser.new [⟨TokenType.LeftParen, "(", 1⟩, ⟨TokenType.True, "true", 1⟩,
        ⟨TokenType.Eof, "", 1⟩])
      ⟨TokenType.LeftParen, "(", 1⟩ (Expr.Literal (LitValue.Boolean true))
      ⟨[⟨TokenType.LeftParen, "(", 1⟩, ⟨TokenType.True, "true", 1⟩, ⟨TokenType.Eof, "", 1⟩],
        2, false, []⟩
      ⟨TokenType.Eof, "", 1⟩ rfl rfl rfl rfl (by decide)
  · exact grouping_recovery_and_parse_none_iff.2 1 (Parser.new [⟨TokenType.Eof, "", 1⟩]) none
      (Parser.error ⟨[⟨TokenType.Eof, "", 1⟩], 0, false, []⟩ "Expected expression.") rfl

/-- C7: for every token vector produced by the pipeline scanner and
every cursor position, `peek_token` is defined; at or past the last index
it yields the end-of-input token (kind `Eof`, empty lexeme). -/
theorem peek_token_always_defined (source : String) (k : Nat) (flag : Bool) (es : List String) :
    ∃ t, Parser.peek_token ⟨(scan_raw_tokens source).map convert_token, k, flag, es⟩ = some t ∧
      (((scan_raw_tokens source).map convert_token).length ≤ k →
        t.token_type = TokenType.Eof ∧ t.lexeme = "") := by
  by_cases hk : ((scan_raw_tokens source).map convert_token).length ≤ k
  · refine ⟨⟨TokenType.Eof, "",
      ((scanRawGo source.data.length source.data 1).getD ([], 1)).2⟩, ?_, fun _ => ⟨rfl, rfl⟩⟩
    unfold Parser.peek_token
    dsimp only
    rw [if_pos hk]
    show ((scan_raw_tokens source).map convert_token).getLast? = _
    unfold scan_raw_tokens
    rw [List.map_append]
    simp only [List.map_cons, List.map_nil]
    rw [List.getLast?_concat]
    rfl
  · push_neg at hk
    refine ⟨((scan_raw_tokens source).map convert_token).get ⟨k, hk⟩, ?_,
      fun hge => absurd hge (by omega)⟩
    unfold Parser.peek_token
    dsimp only
    rw [if_neg (by omega)]
    exact List.get?_eq_get hk

/-- Witness for C7 at the source `(` and the out-of-range cursor 5. -/
theorem peek_token_always_defined_wit :
    ∃ t, Parser.peek_token ⟨(scan_raw_tokens "(").map convert_token, 5, false, []⟩ = some t ∧
      (((scan_raw_tokens "(").map convert_token).length ≤ 5 →
        t.token_type = TokenType.Eof ∧ t.lexeme = "") :=
  peek_token_always_defined "(" 5 false []

/-- C8: both scanner loops run to completion on every finite input (their
fuel never runs out), `tokenize` ends its stdout with the single
`EOF  null` line, and `scan_raw_tokens` appends exactly one end-of-input
token, with empty lexeme, after a sequence containing no other `EOF`
token. -/
theorem scanning_terminates_single_eof (source : String) :
    (tokenizeGo source.data.length source.data 1).isSome = true ∧
    (scanRawGo source.data.length source.data 1).isSome = true ∧
    (∃ ls, (tokenize source).out = ls ++ ["EOF  null"]) ∧
    ∃ pre l, scan_raw_tokens source = pre ++ [⟨"EOF", "", l⟩] ∧
      ∀ t ∈ pre, RawToken.token_type t ≠ "EOF" := by
  refine ⟨tokenizeGo_total _ _ _ le_rfl, scanRawGo_total _ _ _ le_rfl, ⟨_, rfl⟩, ?_⟩
  obtain ⟨r, hr⟩ :=
    Option.isSome_iff_exists.mp (scanRawGo_total source.data.length source.data 1 le_rfl)
  refine ⟨r.1, r.2, ?_, scanRawGo_no_eof _ _ _ r hr⟩
  unfold scan_raw_tokens
  rw [hr]
  rfl

/-- Witness for C8 at the source `(`. -/
theorem scanning_terminates_single_eof_wit :
    (tokenizeGo "(".data.length "(".data 1).isSome = true ∧
    (scanRawGo "(".data.length "(".data 1).isSome = true ∧
    (∃ ls, (tokenize "(").out = ls ++ ["EOF  null"]) ∧
    ∃ pre l, scan_raw_tokens "(" = pre ++ [⟨"EOF", "", l⟩] ∧
      ∀ t ∈ pre, RawToken.token_type t ≠ "EOF" :=
  scanning_terminates_single_eof "("

/-- C9, counterexample: the `Unexpected character` diagnostic of
`tokenize` does not end with a period, refuting the claim that every
lexical diagnostic is formatted `[line N] Error: message.` with a
trailing period. -/
theorem unexpected_char_no_period_refuted :
    (tokenize "@").err = ["[line 1] Error: Unexpected character: @"] ∧
    ("[line 1] Error: Unexpected character: @").data.getLast? = some '@' ∧ '@' ≠ '.' := by
  refine ⟨rfl, ?_, ?_⟩ <;> decide

/-- C9, amended: every lexical diagnostic of `tokenize` is either
`[line N] Error: Unterminated string.` (with trailing period) or
`[line N] Error: Unexpected character: c` (no trailing period); scanning
`@` reports the latter at line 1, sets the flag, and still emits the
end-of-input line. -/
theorem lexical_diagnostic_shapes :
    tokenize "@" = ⟨["EOF  null"], ["[line 1] Error: Unexpected character: @"], true⟩ ∧
    ∀ (source : String), ∀ e ∈ (tokenize source).err,
      (∃ n : Nat, e = "[line " ++ toString n ++ "] Error: Unterminated string.") ∨
      (∃ (n : Nat) (c2 : Char), e = "[line " ++ toString n ++ "] Error: Unexpected character: " ++
        Char.toString c2) := by
  refine ⟨rfl, ?_⟩
  intro source e he
  obtain ⟨r, hr⟩ :=
    Option.isSome_iff_exists.mp (tokenizeGo_total source.data.length source.data 1 le_rfl)
  have herr : (tokenize source).err = r.err := by
    unfold tokenize
    rw [hr]
    rfl
  rw [herr] at he
  exact tokenizeGo_err_shape _ _ _ r hr e he

/-- Witness for the amended C9 at the diagnostic produced by `@`. -/
theorem lexical_diagnostic_shapes_wit :
    tokenize "@" = ⟨["EOF  null"], ["[line 1] Error: Unexpected character: @"], true⟩ ∧
    ((∃ n : Nat, "[line 1] Error: Unexpected character: @" =
        "[line " ++ toString n ++ "] Error: Unterminated string.") ∨
     (∃ (n : Nat) (c2 : Char), "[line 1] Error: Unexpected character: @" =
        "[line " ++ toString n ++ "] Error: Unexpected character: " ++ Char.toString c2)) :=
  ⟨lexical_diagnostic_shapes.1,
    lexical_diagnostic_shapes.2 "@" "[line 1] Error: Unexpected character: @"
      (by rw [lexical_diagnostic_shapes.1]; exact List.mem_cons_self _ _)⟩

/-- A parser stuck on a token vector whose final element is `(`: from a
cursor at the end, `peek_token` keeps yielding `(` and `advance` is a
no-op, so `primary` consumes no fuel-independent progress and diverges
(`none` at every fuel). -/
theorem primary_stuck_on_trailing_lparen :
    ∀ fuel : Nat,
      Parser.primary fuel ⟨[⟨TokenType.LeftParen, "(", 1⟩], 1, false, []⟩ = none := by
  intro fuel
  induction fuel with
  | zero => rfl
  | succ fuel ih =>
    rw [Parser.primary]
    have hpk : Parser.peek_token ⟨[⟨TokenType.LeftParen, "(", 1⟩], 1, false, []⟩ =
        some ⟨TokenType.LeftParen, "(", 1⟩ := rfl
    rw [hpk]
    dsimp only
    have hadv : Parser.advance ⟨[⟨TokenType.LeftParen, "(", 1⟩], 1, false, []⟩ =
        ⟨[⟨TokenType.LeftParen, "(", 1⟩], 1, false, []⟩ := rfl
    rw [hadv, ih]

/-- C10: `Parser::parse` terminates on every token vector ending in
`Eof` (the fuel `length + 1` supplied by the pipeline suffices, because
the grouping recursion strictly increases the cursor while it stays left
of the final `Eof`); and the trailing-`Eof` precondition is essential: on
the vector `[(]` the recursion is not well-founded — `primary` fails at
every fuel. -/
theorem parser_terminates_iff_trailing_eof :
    (∀ (toks : List Token) (t : Token),
      toks.getLast? = some t → t.token_type = TokenType.Eof →
      (Parser.parse (toks.length + 1) (Parser.new toks)).isSome = true) ∧
    (∀ fuel : Nat, Parser.primary fuel (Parser.new [⟨TokenType.LeftParen, "(", 1⟩]) = none) := by
  constructor
  · intro toks t hlast ht
    have h1 : (Parser.primary (toks.length + 1) (Parser.new toks)).isSome = true := by
      refine Parser.primary_total _ _ t hlast ht ?_
      show toks.length - 0 < toks.length + 1
      omega
    obtain ⟨pair, hpr⟩ := Option.isSome_iff_exists.mp h1
    obtain ⟨e, p2⟩ := pair
    unfold Parser.parse Parser.expression
    rw [hpr]
    rfl
  · intro fuel
    cases fuel with
    | zero => rfl
    | succ fuel =>
      rw [Parser.primary]
      have hpk : Parser.peek_token (Parser.new [⟨TokenType.LeftParen, "(", 1⟩]) =
          some ⟨TokenType.LeftParen, "(", 1⟩ := rfl
      rw [hpk]
      dsimp only
      have hadv : Parser.advance (Parser.new [⟨TokenType.LeftParen, "(", 1⟩]) =
          ⟨[⟨TokenType.LeftParen, "(", 1⟩], 1, false, []⟩ := rfl
      rw [hadv, primary_stuck_on_trailing_lparen fuel]

/-- Witness for C10: the one-token vector `[Eof]` parses with the
pipeline fuel, and the vector `[(]` fails at fuel 5. -/
theorem parser_terminates_iff_trailing_eof_wit :
    (Parser.parse 2 (Parser.new [⟨TokenType.Eof, "", 1⟩])).isSome = true ∧
    Parser.primary 5 (Parser.new [⟨TokenType.LeftParen, "(", 1⟩]) = none :=
  ⟨parser_terminates_iff_trailing_eof.1 [⟨TokenType.Eof, "", 1⟩] ⟨TokenType.Eof, "", 1⟩ rfl rfl,
    parser_terminates_iff_trailing_eof.2 5⟩

end Lox
